import Mathlib

/-!
Shallow embedding of the Star-seeker stream adapter
(`src/services/geminiService.ts`, `performSearchStream`) and proofs of the
specification claims about it.

Modelling conventions:
* An upstream chunk is modelled by the fields the adapter reads:
  `chunk.text` (an optional string, the code uses `chunk.text || ""`) and
  the list `chunk.candidates?.[0]?.groundingMetadata?.groundingChunks || []`,
  each entry carrying an optional `web : {uri, title?}` citation.
* JavaScript falsiness of strings (`undefined` or `""`) is modelled
  explicitly where the code relies on it (`!apiKey`, `!suggestion`,
  `title || uri`).
* `String.prototype.replace` with a string pattern or a non-global regex
  replaces only the first match; this is modelled by `removeFirstStr` and
  `blankFirstMarkerLine`.
* The JavaScript `Map` built by `new Map(allSources.map(s => [s.uri, s]))`
  keeps each key at the position of its first insertion and keeps the last
  value written for it; `Array.from(map.values())` lists values in that key
  order.  This is modelled by `setKey`/`buildMap`.
* Line structure is idealised to `'\n'`-separated lines and whitespace to the
  ASCII whitespace recognised by `String.trim`.
* The generator either throws before producing anything (missing API key,
  modelled as `Except.error`) or consumes the whole upstream stream (given
  as a list of chunks) and yields one snapshot per chunk followed by the
  terminal `{done := true}` marker.
-/

namespace StarSeeker

/-- The `web` field of a grounding chunk: `{uri, title?}`. -/
structure WebRef where
  uri : String
  title : Option String
deriving DecidableEq, Repr

/-- One entry of `groundingMetadata.groundingChunks`; `web` may be absent. -/
structure GroundingChunk where
  web : Option WebRef
deriving DecidableEq, Repr

/-- The part of an upstream stream chunk the adapter reads. -/
structure Chunk where
  text : Option String
  groundingChunks : List GroundingChunk
deriving DecidableEq, Repr

/-- A deduplicated source entry `{uri, title}`. -/
structure Source where
  uri : String
  title : String
deriving DecidableEq, Repr

/-- An emitted result snapshot `{text, suggestion?, sources}`. -/
structure Snapshot where
  text : String
  suggestion : Option String
  sources : List Source
deriving DecidableEq, Repr

/-- The literal suggestion marker used by the adapter. -/
def marker : String := "추천검색어:"

/-! String primitives are modelled structurally over `List Char` so that the
JavaScript semantics is explicit (and concrete computations reduce). -/

/-- `containsSub pat l`: does `pat` occur as a contiguous sublist of `l`?
(Models `String.prototype.includes`.) -/
def containsSub (pat : List Char) : List Char → Bool
  | [] => pat.isEmpty
  | c :: cs => pat.isPrefixOf (c :: cs) || containsSub pat cs

/-- `strContains s pat`: JavaScript `s.includes(pat)`. -/
def strContains (s pat : String) : Bool := containsSub pat.data s.data

/-- `strStarts s pat`: JavaScript `s.startsWith(pat)`. -/
def strStarts (s pat : String) : Bool := pat.data.isPrefixOf s.data

/-- Whitespace as trimmed by `trim`, idealised to ASCII whitespace. -/
def isWsp (c : Char) : Bool := c == ' ' || c == '\t' || c == '\n' || c == '\r'

/-- `strTrim s`: JavaScript `s.trim()` (ASCII-whitespace idealisation). -/
def strTrim (s : String) : String :=
  ⟨((s.data.dropWhile isWsp).reverse.dropWhile isWsp).reverse⟩

/-- Split a character list at every occurrence of `sep`
(JavaScript `split` with a single-character separator). -/
def splitOnChar (sep : Char) : List Char → List (List Char)
  | [] => [[]]
  | c :: cs =>
    match splitOnChar sep cs with
    | [] => [[]]
    | h :: t => if c == sep then [] :: h :: t else (c :: h) :: t

/-- `splitLines s`: JavaScript `s.split('\n')`. -/
def splitLines (s : String) : List String :=
  (splitOnChar '\n' s.data).map fun l => ⟨l⟩

/-- Rejoin lines with `'\n'` (inverse of `splitLines`). -/
def joinLines : List String → String
  | [] => ""
  | l :: ls =>
    match ls with
    | [] => l
    | _ :: _ => l ++ "\n" ++ joinLines ls

/-- Remove the first occurrence of `pat` (nonempty) from a character list;
if `pat` does not occur, the list is unchanged. -/
def removeFirstList (pat : List Char) : List Char → List Char
  | [] => []
  | c :: cs =>
    if pat.isPrefixOf (c :: cs) then (c :: cs).drop pat.length
    else c :: removeFirstList pat cs

/-- JavaScript `s.replace(pat, "")` for a plain-string `pat`: only the first
occurrence is removed. -/
def removeFirstStr (pat s : String) : String := ⟨removeFirstList pat.data s.data⟩

/-- JavaScript string falsiness of the `suggestion` variable:
`undefined` or the empty string. -/
def suggFalsy : Option String → Bool
  | none => true
  | some s => s == ""

/-- One round of the suggestion-extraction block (source lines 37–44):
```
if (!suggestion && fullText.includes("추천검색어:")) {
  const lines = fullText.split('\n');
  const suggestionLine = lines.find(line => line.trim().startsWith("추천검색어:"));
  if (suggestionLine && (suggestionLine.includes("\n") || fullText.split('\n').length > 1)) {
     suggestion = suggestionLine.replace("추천검색어:", "").trim();
  }
}
```
-/
def stepSuggestion (fullText : String) (suggestion : Option String) : Option String :=
  if suggFalsy suggestion && strContains fullText marker then
    let lines := splitLines fullText
    match lines.find? (fun line => strStarts (strTrim line) marker) with
    | some suggestionLine =>
      if strContains suggestionLine "\n" || decide (lines.length > 1) then
        some (strTrim (removeFirstStr marker suggestionLine))
      else suggestion
    | none => suggestion
  else suggestion

/-- `chunks.filter(c => c.web).map(c => ({uri: c.web!.uri, title: c.web!.title || c.web!.uri}))`. -/
def toSources (gchunks : List GroundingChunk) : List Source :=
  gchunks.filterMap fun g =>
    g.web.map fun w =>
      ⟨w.uri, match w.title with
              | some t => if t == "" then w.uri else t
              | none => w.uri⟩

/-- `map.set(s.uri, s)` on a JavaScript `Map` represented as an
insertion-ordered association list: an existing key keeps its position and
gets the new value, a new key is appended. -/
def setKey (m : List Source) (s : Source) : List Source :=
  if m.any fun p => p.uri == s.uri then
    m.map fun p => if p.uri == s.uri then s else p
  else m ++ [s]

/-- `Array.from(new Map(l.map(s => [s.uri, s])).values())`. -/
def buildMap (l : List Source) : List Source := l.foldl setKey []

/-- The source-extraction block (source lines 46–58): if the chunk carries a
nonempty `groundingChunks` list, rebuild the source list from the old one
followed by the chunk's web citations; otherwise leave it untouched. -/
def stepSources (sources : List Source) (gchunks : List GroundingChunk) : List Source :=
  if gchunks.length > 0 then buildMap (sources ++ toSources gchunks)
  else sources

/-- The accumulator state of the generator loop. -/
structure State where
  fullText : String
  suggestion : Option String
  sources : List Source
deriving DecidableEq, Repr

/-- The loop state before the first chunk. -/
def initState : State := ⟨"", none, []⟩

/-- Processing one chunk of the `for await` loop body (minus the `yield`). -/
def stepState (st : State) (ch : Chunk) : State :=
  let fullText := st.fullText ++ ch.text.getD ""
  ⟨fullText, stepSuggestion fullText st.suggestion,
    stepSources st.sources ch.groundingChunks⟩

/-- Blank the first line that starts with the marker: the effect of the
non-global multiline regex replace `fullText.replace(/^추천검색어:.*$/m, "")`
on the list of lines. -/
def blankFirstMarkerLine : List String → List String
  | [] => []
  | l :: ls => if strStarts l marker then "" :: ls else l :: blankFirstMarkerLine ls

/-- `fullText.replace(/^추천검색어:.*$/m, "").trim()`. -/
def cleanText (fullText : String) : String :=
  strTrim (joinLines (blankFirstMarkerLine (splitLines fullText)))

/-- The snapshot yielded after a loop iteration ending in state `st`. -/
def snapshotOf (st : State) : Snapshot :=
  ⟨cleanText st.fullText, st.suggestion, st.sources⟩

/-- The successive states after each chunk (one entry per chunk). -/
def statesFrom : State → List Chunk → List State
  | _, [] => []
  | st, ch :: rest => stepState st ch :: statesFrom (stepState st ch) rest

/-- The snapshots yielded for a given upstream chunk sequence, in order. -/
def snapshots (chunks : List Chunk) : List Snapshot :=
  (statesFrom initState chunks).map snapshotOf

/-- An item of the produced sequence: a snapshot or the terminal marker. -/
inductive StreamItem where
  | snapshot (s : Snapshot)
  | done
deriving DecidableEq, Repr

/-- The full yielded sequence of the generator loop. -/
def runStream : State → List Chunk → List StreamItem
  | _, [] => [.done]
  | st, ch :: rest => .snapshot (snapshotOf (stepState st ch)) :: runStream (stepState st ch) rest

/-- The errors the adapter can raise before streaming. -/
inductive SearchError where
  | authError (msg : String)
deriving DecidableEq, Repr

/-- The message of the missing-API-key error. -/
def authMsg : String := "API 키가 설정되지 않았습니다. 환경 변수를 확인해주세요."

/-- `performSearchStream`: given the `GEMINI_API_KEY` environment value, the
query, and the upstream chunk stream, either fail with the auth error (key
absent or empty, i.e. falsy) before producing anything, or produce the full
yielded sequence. -/
def performSearchStream (env : Option String) (_query : String)
    (upstream : List Chunk) : Except SearchError (List StreamItem) :=
  match env with
  | none => .error (.authError authMsg)
  | some key =>
    if key == "" then .error (.authError authMsg)
    else .ok (runStream initState upstream)

/-- The web citations contributed by one chunk. -/
def citesOfChunk (c : Chunk) : List Source := toSources c.groundingChunks

/-- All web citations contributed by a chunk sequence, in stream order. -/
def allCites (l : List Chunk) : List Source := (l.map citesOfChunk).flatten

/-- The uris of a source list. -/
def uris (m : List Source) : List String := m.map Source.uri

/-- Insert a string into an accumulator unless already present. -/
def insOcc (acc : List String) (u : String) : List String :=
  if u ∈ acc then acc else acc ++ [u]

/-- Keep the first occurrence of each string, in first-appearance order. -/
def firstOcc (l : List String) : List String := l.foldl insOcc []

/-- The last (most recent) entry of `l` whose uri is `u`. -/
def findLastByUri (l : List Source) (u : String) : Option Source :=
  l.reverse.find? fun t => t.uri == u

/-- The accumulated text buffer after a list of chunks, as accumulated by the
source's `fullText += chunk.text || ""`. -/
def bufferOf (l : List Chunk) : String :=
  l.foldl (fun acc c => acc ++ c.text.getD "") ""

/-- Modelled from the spec: claim C7's reading of step 4, "`text` =
accumulated buffer with any (i.e. every) line matching the suggestion marker
pattern removed, trimmed". -/
def cleanTextAllLines (fullText : String) : String :=
  strTrim (joinLines ((splitLines fullText).map fun l =>
    if strStarts l marker then "" else l))

/-! ### Properties of the keyed-map rebuild -/

lemma any_eq_mem_uris (m : List Source) (u : String) :
    (m.any fun p => p.uri == u) = true ↔ u ∈ uris m := by
  simp only [List.any_eq_true, beq_iff_eq, uris, List.mem_map]

lemma uris_setKey (m : List Source) (s : Source) :
    uris (setKey m s) = if s.uri ∈ uris m then uris m else uris m ++ [s.uri] := by
  by_cases h : s.uri ∈ uris m
  · have ha : (m.any fun p => p.uri == s.uri) = true := (any_eq_mem_uris m s.uri).mpr h
    rw [if_pos h]
    simp only [setKey, ha, if_true]
    unfold uris
    rw [List.map_map]
    refine List.map_congr_left fun p _ => ?_
    by_cases hb : p.uri = s.uri
    · simp [Function.comp, hb]
    · simp [Function.comp, hb]
  · have ha : (m.any fun p => p.uri == s.uri) = false := by
      rw [Bool.eq_false_iff]
      intro hc
      exact h ((any_eq_mem_uris m s.uri).mp hc)
    rw [if_neg h]
    simp [setKey, ha, uris]

lemma setKey_of_not_mem {m : List Source} {s : Source} (h : s.uri ∉ uris m) :
    setKey m s = m ++ [s] := by
  have ha : (m.any fun p => p.uri == s.uri) = false := by
    rw [Bool.eq_false_iff]
    intro hc
    exact h ((any_eq_mem_uris m s.uri).mp hc)
  simp [setKey, ha]

lemma uris_foldl_setKey (l : List Source) :
    ∀ m : List Source, uris (l.foldl setKey m) = (l.map Source.uri).foldl insOcc (uris m) := by
  induction l with
  | nil => intro m; rfl
  | cons s l ih =>
    intro m
    simp only [List.foldl_cons, List.map_cons, ih (setKey m s), uris_setKey, insOcc]

lemma uris_buildMap (l : List Source) : uris (buildMap l) = firstOcc (uris l) := by
  have h := uris_foldl_setKey l []
  simpa [buildMap, firstOcc, uris] using h

lemma mem_insOcc {u a : String} {acc : List String} :
    u ∈ insOcc acc a ↔ u ∈ acc ∨ u = a := by
  by_cases h : a ∈ acc
  · simp only [insOcc, if_pos h]
    constructor
    · exact Or.inl
    · rintro (h1 | rfl)
      · exact h1
      · exact h
  · simp [insOcc, if_neg h]

lemma mem_foldl_insOcc {u : String} (l : List String) :
    ∀ acc, u ∈ l.foldl insOcc acc ↔ u ∈ acc ∨ u ∈ l := by
  induction l with
  | nil => intro acc; simp
  | cons a l ih =>
    intro acc
    rw [List.foldl_cons, ih (insOcc acc a), mem_insOcc]
    simp [or_assoc, eq_comm]

lemma mem_firstOcc {u : String} {l : List String} : u ∈ firstOcc l ↔ u ∈ l := by
  simp [firstOcc, mem_foldl_insOcc]

lemma nodup_insOcc {acc : List String} (a : String) (h : acc.Nodup) :
    (insOcc acc a).Nodup := by
  by_cases hm : a ∈ acc
  · simpa [insOcc, hm] using h
  · simp [insOcc, hm, List.nodup_append, h]

lemma nodup_foldl_insOcc (l : List String) :
    ∀ acc : List String, acc.Nodup → (l.foldl insOcc acc).Nodup := by
  induction l with
  | nil => intro acc h; exact h
  | cons a l ih => intro acc h; exact ih _ (nodup_insOcc a h)

lemma nodup_firstOcc (l : List String) : (firstOcc l).Nodup :=
  nodup_foldl_insOcc l [] List.nodup_nil

lemma nodup_uris_buildMap (l : List Source) : (uris (buildMap l)).Nodup := by
  rw [uris_buildMap]
  exact nodup_firstOcc _

lemma foldl_setKey_of_nodup (l : List Source) :
    ∀ m : List Source, (uris m ++ uris l).Nodup → l.foldl setKey m = m ++ l := by
  induction l with
  | nil => intro m _; simp
  | cons s l ih =>
    intro m h
    have hs : s.uri ∉ uris m := by
      intro hm
      have := (List.nodup_append.mp h).2.2
      exact this hm (by simp [uris])
    have hrest : (uris (m ++ [s]) ++ uris l).Nodup := by
      have : uris (m ++ [s]) ++ uris l = uris m ++ uris (s :: l) := by
        simp [uris]
      rw [this]
      exact h
    rw [List.foldl_cons, setKey_of_not_mem hs, ih (m ++ [s]) hrest, List.append_assoc]
    rfl

lemma buildMap_of_nodup {l : List Source} (h : (uris l).Nodup) : buildMap l = l := by
  have := foldl_setKey_of_nodup l [] (by simpa [uris])
  simpa [buildMap] using this

lemma buildMap_idem (l : List Source) : buildMap (buildMap l) = buildMap l :=
  buildMap_of_nodup (nodup_uris_buildMap l)

lemma buildMap_buildMap_append (a b : List Source) :
    buildMap (buildMap a ++ b) = buildMap (a ++ b) := by
  calc buildMap (buildMap a ++ b)
      = b.foldl setKey (buildMap (buildMap a)) := by
        simp [buildMap, List.foldl_append]
    _ = b.foldl setKey (buildMap a) := by rw [buildMap_idem]
    _ = buildMap (a ++ b) := by simp [buildMap, List.foldl_append]

lemma buildMap_append_singleton (l : List Source) (t : Source) :
    buildMap (l ++ [t]) = setKey (buildMap l) t := by
  simp [buildMap, List.foldl_append]

/-- Every entry of the rebuilt map is the most recent occurrence of its key. -/
lemma findLastByUri_of_mem_buildMap (l : List Source) :
    ∀ s ∈ buildMap l, findLastByUri l s.uri = some s := by
  induction l using List.reverseRecOn with
  | nil => intro s hs; simp [buildMap] at hs
  | append_singleton l t ih =>
    intro s hs
    rw [buildMap_append_singleton] at hs
    by_cases hk : t.uri ∈ uris (buildMap l)
    · have ha : ((buildMap l).any fun p => p.uri == t.uri) = true :=
        (any_eq_mem_uris _ _).mpr hk
      rw [setKey, if_pos ha] at hs
      obtain ⟨p, hp, hps⟩ := List.mem_map.mp hs
      by_cases hb : p.uri = t.uri
      · rw [if_pos (by simpa [beq_iff_eq] using hb)] at hps
        subst hps
        simp [findLastByUri, List.find?]
      · rw [if_neg (by simpa [beq_iff_eq] using hb)] at hps
        subst hps
        have hne : (t.uri == p.uri) = false := by
          simp [beq_iff_eq]
          intro he
          exact hb he.symm
        simpa [findLastByUri, List.find?, hne] using ih p hp
    · have ha : ((buildMap l).any fun p => p.uri == t.uri) = false := by
        rw [Bool.eq_false_iff]
        intro hc
        exact hk ((any_eq_mem_uris _ _).mp hc)
      rw [setKey, if_neg (by simp [ha])] at hs
      rcases List.mem_append.mp hs with hmem | hmem
      · have hne : (t.uri == s.uri) = false := by
          simp only [beq_eq_false_iff_ne, ne_eq]
          intro he
          exact hk (he ▸ List.mem_map_of_mem Source.uri hmem)
        simpa [findLastByUri, List.find?, hne] using ih s hmem
      · have hst : s = t := by simpa using hmem
        subst hst
        simp [findLastByUri, List.find?]

/-! ### The stream backbone -/

lemma statesFrom_length (cs : List Chunk) :
    ∀ st : State, (statesFrom st cs).length = cs.length := by
  induction cs with
  | nil => intro st; rfl
  | cons c cs ih => intro st; simp [statesFrom, ih]

lemma statesFrom_getElem? (cs : List Chunk) :
    ∀ (st : State) (i : ℕ), i < cs.length →
      (statesFrom st cs)[i]? = some ((cs.take (i + 1)).foldl stepState st) := by
  induction cs with
  | nil => intro st i hi; simp at hi
  | cons c cs ih =>
    intro st i hi
    match i with
    | 0 => simp [statesFrom]
    | i + 1 =>
      have hi' : i < cs.length := by simpa using hi
      simpa [statesFrom, List.take_succ_cons] using ih (stepState st c) i hi'

/-- Read a hypothesis `（snapshots chunks)[i]? = some snap` off as the foldl
of the first `i + 1` chunks. -/
lemma snapshots_getElem?_some {chunks : List Chunk} {i : ℕ} {snap : Snapshot}
    (h : (snapshots chunks)[i]? = some snap) :
    i < chunks.length ∧ snap = snapshotOf ((chunks.take (i + 1)).foldl stepState initState) := by
  by_cases hi : i < chunks.length
  · rw [snapshots, List.getElem?_map, statesFrom_getElem? chunks initState i hi] at h
    simp only [Option.map_some'] at h
    exact ⟨hi, (Option.some.inj h).symm⟩
  · rw [snapshots, List.getElem?_map, List.getElem?_eq_none
      (by rw [statesFrom_length]; omega)] at h
    simp at h

lemma runStream_eq (cs : List Chunk) :
    ∀ st : State, runStream st cs =
      (statesFrom st cs).map (fun s => StreamItem.snapshot (snapshotOf s)) ++
        [StreamItem.done] := by
  induction cs with
  | nil => intro st; rfl
  | cons c cs ih => intro st; simp [runStream, statesFrom, ih]

lemma fullText_foldl (l : List Chunk) :
    ∀ st : State, (l.foldl stepState st).fullText =
      l.foldl (fun acc c => acc ++ c.text.getD "") st.fullText := by
  induction l with
  | nil => intro st; rfl
  | cons c l ih => intro st; simp [List.foldl_cons, ih, stepState]

lemma suggestion_stepState {st : State} {s : String} (hs : s ≠ "")
    (h : st.suggestion = some s) (c : Chunk) :
    (stepState st c).suggestion = some s := by
  have hb : (s == "") = false := by simpa [beq_iff_eq] using hs
  simp [stepState, stepSuggestion, h, suggFalsy, hb]

lemma suggestion_foldl_stable (l : List Chunk) :
    ∀ (st : State) (s : String), s ≠ "" → st.suggestion = some s →
      (l.foldl stepState st).suggestion = some s := by
  induction l with
  | nil => intro st s _ h; exact h
  | cons c l ih =>
    intro st s hs h
    exact ih (stepState st c) s hs (suggestion_stepState hs h c)

lemma mem_uris_stepSources {m : List Source} {u : String}
    (h : u ∈ uris m) (g : List GroundingChunk) : u ∈ uris (stepSources m g) := by
  match g with
  | [] => exact h
  | gc :: gs =>
    simp only [stepSources, List.length_cons, if_pos (Nat.succ_pos _)]
    rw [uris_buildMap]
    rw [mem_firstOcc]
    simp only [uris, List.map_append, List.mem_append]
    exact Or.inl h

lemma mem_uris_foldl (l : List Chunk) :
    ∀ (st : State) (u : String), u ∈ uris st.sources →
      u ∈ uris (l.foldl stepState st).sources := by
  induction l with
  | nil => intro st u h; exact h
  | cons c l ih =>
    intro st u h
    exact ih (stepState st c) u (mem_uris_stepSources h c.groundingChunks)

lemma sources_foldl_buildMap (l : List Chunk) :
    ∀ (st : State) (A : List Source), st.sources = buildMap A →
      (l.foldl stepState st).sources = buildMap (A ++ allCites l) := by
  induction l with
  | nil => intro st A h; simpa [allCites]
  | cons c l ih =>
    intro st A h
    have hstep : (stepState st c).sources = buildMap (A ++ citesOfChunk c) := by
      match hg : c.groundingChunks with
      | [] =>
        simp [stepState, stepSources, hg, h, citesOfChunk, toSources]
      | gc :: gs =>
        simp only [stepState, stepSources, hg, List.length_cons,
          if_pos (Nat.succ_pos _), h, citesOfChunk]
        rw [← hg, buildMap_buildMap_append]
    have := ih (stepState st c) (A ++ citesOfChunk c) hstep
    rw [List.foldl_cons, this]
    simp [allCites, List.append_assoc]

lemma nodup_uris_stepSources {m : List Source}
    (h : (uris m).Nodup) (g : List GroundingChunk) : (uris (stepSources m g)).Nodup := by
  match g with
  | [] => exact h
  | gc :: gs =>
    simp only [stepSources, List.length_cons, if_pos (Nat.succ_pos _)]
    exact nodup_uris_buildMap _

lemma nodup_uris_foldl (l : List Chunk) :
    ∀ st : State, (uris st.sources).Nodup →
      (uris (l.foldl stepState st).sources).Nodup := by
  induction l with
  | nil => intro st h; exact h
  | cons c l ih =>
    intro st h
    exact ih (stepState st c) (nodup_uris_stepSources h c.groundingChunks)

lemma stateAt_succ {chunks : List Chunk} {i : ℕ} {ch : Chunk}
    (h : chunks[i + 1]? = some ch) :
    (chunks.take (i + 2)).foldl stepState initState =
      stepState ((chunks.take (i + 1)).foldl stepState initState) ch := by
  have : chunks.take (i + 2) = chunks.take (i + 1) ++ [ch] := by
    rw [List.take_succ, h]
    rfl
  rw [this, List.foldl_append]
  rfl

/-! ### The claims -/

/-- Claim C1: every emitted snapshot's `sources` list (in particular the final
one) contains no two entries with the same `uri`. -/
theorem C1_sources_nodup (chunks : List Chunk) (i : ℕ) (snap : Snapshot)
    (h : (snapshots chunks)[i]? = some snap) : (uris snap.sources).Nodup := by
  obtain ⟨hi, rfl⟩ := snapshots_getElem?_some h
  have hn : (uris (((chunks.take (i + 1)).foldl stepState initState).sources)).Nodup :=
    nodup_uris_foldl _ initState (by simp [initState, uris])
  simpa [snapshotOf] using hn

theorem C1_witness :
    (uris (Snapshot.sources ⟨"", none, [⟨"u", "t"⟩]⟩)).Nodup :=
  C1_sources_nodup [⟨some "", [⟨some ⟨"u", some "t"⟩⟩]⟩] 0 ⟨"", none, [⟨"u", "t"⟩]⟩
    (by decide)

/-- Claim C2 as stated: once a snapshot's `suggestion` is defined, no later
snapshot of the same stream has an empty or undefined `suggestion`. -/
def suggestionNeverCleared (chunks : List Chunk) : Prop :=
  ∀ (i j : ℕ) (si sj : Snapshot), i < j →
    (snapshots chunks)[i]? = some si → (snapshots chunks)[j]? = some sj →
    si.suggestion.isSome → sj.suggestion ≠ none ∧ sj.suggestion ≠ some ""

/-- Claim C2 is false as stated: with a first chunk `"추천검색어:\nx"` the
suggestion is set (defined) to the empty string, and the snapshot after a
further chunk still carries the empty suggestion. -/
theorem C2_counterexample :
    ¬ suggestionNeverCleared [⟨some "추천검색어:\nx", []⟩, ⟨some "", []⟩] := by
  intro h
  have hc := h 0 1 ⟨"x", some "", []⟩ ⟨"x", some "", []⟩
    (by decide) (by decide) (by decide) (by decide)
  exact hc.2 rfl

/-- Claim C2 amended: once a snapshot's `suggestion` is a non-empty string,
every later snapshot of the same stream has that same suggestion (so it is in
particular never empty or undefined again). -/
theorem C2_amended_suggestion_stable (chunks : List Chunk) (i j : ℕ)
    (si sj : Snapshot) (s : String) (hij : i ≤ j)
    (hi : (snapshots chunks)[i]? = some si)
    (hj : (snapshots chunks)[j]? = some sj)
    (hs : si.suggestion = some s) (hne : s ≠ "") :
    sj.suggestion = some s := by
  obtain ⟨hilt, rfl⟩ := snapshots_getElem?_some hi
  obtain ⟨hjlt, rfl⟩ := snapshots_getElem?_some hj
  have hsplit : chunks.take (j + 1) =
      chunks.take (i + 1) ++ (chunks.drop (i + 1)).take (j - i) := by
    rw [← List.take_add]
    congr 1
    omega
  rw [hsplit, List.foldl_append]
  simp only [snapshotOf] at hs ⊢
  exact suggestion_foldl_stable _ _ s hne hs

theorem C2_witness :
    Snapshot.suggestion ⟨"xy", some "고양이", []⟩ = some "고양이" :=
  C2_amended_suggestion_stable
    [⟨some "추천검색어: 고양이\nx", []⟩, ⟨some "y", []⟩] 0 1
    ⟨"x", some "고양이", []⟩ ⟨"xy", some "고양이", []⟩ "고양이"
    (by decide) (by decide) (by decide) rfl (by decide)

/-- Claim C3: with the API-key credential absent from the environment,
`performSearchStream` fails with the missing-credential auth error before
anything is produced: the result is the error and no snapshot is emitted,
whatever the query and whatever the upstream would have sent. -/
theorem C3_missing_key_fails (q : String) (upstream : List Chunk) :
    performSearchStream none q upstream = .error (.authError authMsg) := rfl

/-- Claim C4: with a credential present, the produced sequence is exactly the
snapshots, one per upstream chunk, followed by the terminal done marker as
its last item, so its total length is n + 1. -/
theorem C4_stream_shape (key q : String) (upstream : List Chunk) (hk : key ≠ "") :
    performSearchStream (some key) q upstream =
      .ok ((snapshots upstream).map StreamItem.snapshot ++ [StreamItem.done]) ∧
    (snapshots upstream).length = upstream.length := by
  have hb : (key == "") = false := by simpa [beq_iff_eq] using hk
  constructor
  · simp only [performSearchStream, hb, Bool.false_eq_true, if_false]
    rw [runStream_eq]
    simp [snapshots, List.map_map, Function.comp]
  · simp [snapshots, statesFrom_length]

theorem C4_witness :
    performSearchStream (some "k") "q" [] =
      .ok ((snapshots []).map StreamItem.snapshot ++ [StreamItem.done]) ∧
    (snapshots []).length = ([] : List Chunk).length :=
  C4_stream_shape "k" "q" [] (by decide)

/-- Claim C5: for a two-chunk stream whose chunks each carry one web citation
with the same `uri` but different (actual, i.e. non-empty) titles, the final
snapshot's `sources` has exactly one entry for that uri, with the title from
the later chunk (an empty upstream title is falsy and is replaced by the uri
by the adapter, so it does not count as a title). -/
theorem C5_same_uri_last_wins (txt1 txt2 : Option String) (u t1 t2 : String)
    (_hne : t1 ≠ t2) (h1 : t1 ≠ "") (h2 : t2 ≠ "") :
    ((snapshots [⟨txt1, [⟨some ⟨u, some t1⟩⟩]⟩, ⟨txt2, [⟨some ⟨u, some t2⟩⟩]⟩])[1]?).map
        Snapshot.sources = some [⟨u, t2⟩] := by
  have hb1 : (t1 == "") = false := by simpa [beq_iff_eq] using h1
  have hb2 : (t2 == "") = false := by simpa [beq_iff_eq] using h2
  have e1 : stepSources initState.sources [⟨some ⟨u, some t1⟩⟩] = [⟨u, t1⟩] := by
    simp [initState, stepSources, toSources, buildMap, setKey]
    intro hc
    exact absurd hc h1
  have e3 : stepSources [(⟨u, t1⟩ : Source)] [⟨some ⟨u, some t2⟩⟩] = [⟨u, t2⟩] := by
    simp [stepSources, toSources, buildMap, setKey]
    intro hc
    exact absurd hc h2
  simp only [snapshots, statesFrom, List.map_cons, List.map_nil,
    List.getElem?_cons_succ, List.getElem?_cons_zero, Option.map_some',
    snapshotOf, stepState]
  rw [e1, e3]

theorem C5_witness :
    ((snapshots [⟨some "", [⟨some ⟨"u", some "a"⟩⟩]⟩,
        ⟨some "", [⟨some ⟨"u", some "b"⟩⟩]⟩])[1]?).map
      Snapshot.sources = some [⟨"u", "b"⟩] :=
  C5_same_uri_last_wins (some "") (some "") "u" "a" "b"
    (by decide) (by decide) (by decide)

/-- Claim C6: a single chunk `"추천검색어: 고양이\n고양이는 포유류입니다."`
with no citations yields the snapshot
`{text := "고양이는 포유류입니다.", suggestion := "고양이", sources := []}`. -/
theorem C6_scenario :
    snapshots [⟨some "추천검색어: 고양이\n고양이는 포유류입니다.", []⟩] =
      [⟨"고양이는 포유류입니다.", some "고양이", []⟩] := by decide

/-- Claim C7 as stated: each emitted snapshot's `text` equals the accumulated
buffer with every line matching the suggestion-marker pattern removed, then
trimmed. -/
def textHasAllMarkerLinesRemoved (chunks : List Chunk) : Prop :=
  ∀ i snap, (snapshots chunks)[i]? = some snap →
    snap.text = cleanTextAllLines (bufferOf (chunks.take (i + 1)))

/-- Claim C7 is false as stated: the non-global regex replace removes only the
first marker line, so a buffer with two marker lines keeps the second one. -/
theorem C7_counterexample :
    ¬ textHasAllMarkerLinesRemoved [⟨some "추천검색어: a\n추천검색어: b\nc", []⟩] := by
  intro h
  have hc := h 0 ⟨"추천검색어: b\nc", some "a", []⟩ (by decide)
  exact absurd hc (by decide)

/-- Claim C7 amended: each emitted snapshot's `text` equals the accumulated
buffer with the first line matching the suggestion-marker pattern removed
(later marker lines are kept), then trimmed. -/
theorem C7_amended_text_clean (chunks : List Chunk) (i : ℕ) (snap : Snapshot)
    (h : (snapshots chunks)[i]? = some snap) :
    snap.text = cleanText (bufferOf (chunks.take (i + 1))) := by
  obtain ⟨hi, rfl⟩ := snapshots_getElem?_some h
  simp only [snapshotOf]
  rw [fullText_foldl]
  rfl

theorem C7_witness :
    Snapshot.text ⟨"b", some "a", []⟩ =
      cleanText (bufferOf ([⟨some "추천검색어: a\nb", []⟩].take 1)) :=
  C7_amended_text_clean [⟨some "추천검색어: a\nb", []⟩] 0 ⟨"b", some "a", []⟩
    (by decide)

/-- Claim C8: in every emitted snapshot the `sources` entries are ordered by
the first appearance of their uri across the stream so far, and each entry is
the most recent occurrence of its uri. -/
theorem C8_first_appearance_last_title (chunks : List Chunk) (i : ℕ)
    (snap : Snapshot) (h : (snapshots chunks)[i]? = some snap) :
    uris snap.sources = firstOcc (uris (allCites (chunks.take (i + 1)))) ∧
    ∀ s ∈ snap.sources, findLastByUri (allCites (chunks.take (i + 1))) s.uri = some s := by
  obtain ⟨hi, rfl⟩ := snapshots_getElem?_some h
  have hsrc : ((chunks.take (i + 1)).foldl stepState initState).sources =
      buildMap (allCites (chunks.take (i + 1))) := by
    have hb := sources_foldl_buildMap (chunks.take (i + 1)) initState [] rfl
    simpa using hb
  constructor
  · show uris ((chunks.take (i + 1)).foldl stepState initState).sources = _
    rw [hsrc, uris_buildMap]
  · intro s hs
    have hs' : s ∈ buildMap (allCites (chunks.take (i + 1))) := by
      rw [← hsrc]
      exact hs
    exact findLastByUri_of_mem_buildMap _ s hs'

theorem C8_witness :
    (uris (Snapshot.sources ⟨"", none, [⟨"u", "t"⟩]⟩) =
      firstOcc (uris (allCites ([⟨some "", [⟨some ⟨"u", some "t"⟩⟩]⟩].take 1)))) ∧
    ∀ s ∈ Snapshot.sources ⟨"", none, [⟨"u", "t"⟩]⟩,
      findLastByUri (allCites ([⟨some "", [⟨some ⟨"u", some "t"⟩⟩]⟩].take 1)) s.uri =
        some s :=
  C8_first_appearance_last_title [⟨some "", [⟨some ⟨"u", some "t"⟩⟩]⟩] 0
    ⟨"", none, [⟨"u", "t"⟩]⟩ (by decide)

/-- Claim C9: the set of uris in the `sources` list never shrinks: a uri
present in an emitted snapshot is present in every later snapshot of the same
stream. -/
theorem C9_sources_monotone (chunks : List Chunk) (i j : ℕ) (si sj : Snapshot)
    (u : String) (hij : i ≤ j)
    (hi : (snapshots chunks)[i]? = some si)
    (hj : (snapshots chunks)[j]? = some sj)
    (hu : u ∈ uris si.sources) : u ∈ uris sj.sources := by
  obtain ⟨hilt, rfl⟩ := snapshots_getElem?_some hi
  obtain ⟨hjlt, rfl⟩ := snapshots_getElem?_some hj
  have hsplit : chunks.take (j + 1) =
      chunks.take (i + 1) ++ (chunks.drop (i + 1)).take (j - i) := by
    rw [← List.take_add]
    congr 1
    omega
  rw [hsplit, List.foldl_append]
  simp only [snapshotOf] at hu ⊢
  exact mem_uris_foldl _ _ u hu

theorem C9_witness :
    "u" ∈ uris (Snapshot.sources ⟨"", none, [⟨"u", "t"⟩]⟩) :=
  C9_sources_monotone [⟨some "", [⟨some ⟨"u", some "t"⟩⟩]⟩, ⟨some "", []⟩] 0 1
    ⟨"", none, [⟨"u", "t"⟩]⟩ ⟨"", none, [⟨"u", "t"⟩]⟩ "u"
    (by decide) (by decide) (by decide) (by decide)

/-- Claim C10: a chunk with no grounding-metadata citations leaves the
`sources` accumulator exactly as it was in the previous snapshot. -/
theorem C10_no_citations_frame (chunks : List Chunk) (i : ℕ) (ch : Chunk)
    (si sj : Snapshot) (hch : chunks[i + 1]? = some ch)
    (hg : ch.groundingChunks = [])
    (hi : (snapshots chunks)[i]? = some si)
    (hj : (snapshots chunks)[i + 1]? = some sj) :
    sj.sources = si.sources := by
  obtain ⟨hilt, rfl⟩ := snapshots_getElem?_some hi
  obtain ⟨hjlt, rfl⟩ := snapshots_getElem?_some hj
  rw [show i + 1 + 1 = i + 2 from rfl, stateAt_succ hch]
  simp [snapshotOf, stepState, stepSources, hg]

theorem C10_witness :
    Snapshot.sources ⟨"ab", none, [⟨"u", "t"⟩]⟩ =
      Snapshot.sources ⟨"a", none, [⟨"u", "t"⟩]⟩ :=
  C10_no_citations_frame
    [⟨some "a", [⟨some ⟨"u", some "t"⟩⟩]⟩, ⟨some "b", []⟩] 0 ⟨some "b", []⟩
    ⟨"a", none, [⟨"u", "t"⟩]⟩ ⟨"ab", none, [⟨"u", "t"⟩]⟩
    (by decide) rfl (by decide) (by decide)

end StarSeeker
